import Mathlib

/-!
# Verification of `discord-sync-commands` (`src/index.js`)

A shallow embedding of the command-synchronization module. The module
receives a list of desired command definitions, fetches the currently
registered commands (the snapshot), and issues create / delete / edit
calls to converge the remote state to the desired list.

Modelling conventions:
* A JavaScript field that may be `undefined` is an `Option`; JavaScript
  strict (in)equality `!==` on such a field is `Option` equality
  (`undefined` corresponds to `none`).
* Asynchronous mutation calls that may throw are modelled by oracles
  (`createOk`, `deleteOk`, `editOk`) deciding, per item, whether the call
  succeeds or throws; the loops in the source swallow a throw and move on.
* `ApplicationCommand.optionsEqual` lives in the external `discord.js`
  library, not in this repository; it is modelled from the spec.
-/

namespace SyncCommands

/-- The value of one entry of an option's `choices` array: a string or a
number. -/
inductive ChoiceValue where
  | str (s : String)
  | num (n : Int)
deriving DecidableEq, Repr

/-- One entry of an option's `choices` array: a `{name, value}` pair. -/
structure Choice where
  name : String
  value : ChoiceValue
deriving DecidableEq, Repr

/-- An application-command option. `required`, `choices` and the nested
`options` may be absent (`none`), mirroring optional JavaScript fields;
the presence of nested `options` is what distinguishes a subcommand /
group from a leaf option. -/
inductive OptionDef where
  | mk (name : String) (description : String) (type : Nat)
      (required : Option Bool) (choices : Option (List Choice))
      (options : Option (List OptionDef))
deriving Repr

/-- Accessor for the `name` field of an option. -/
def OptionDef.name : OptionDef → String
  | .mk n _ _ _ _ _ => n

mutual

/-- Modelled from the spec: `discord.js`'s `ApplicationCommand.optionsEqual`
on a single pair of options (external library code, absent from `src/`).
Compares `name`, `description`, `type` and `required` (defaulting a
missing `required` to `false`), requires `choices` to be declared on both
sides or neither and to match positionally on name and value, and requires
nested `options` to be declared on both sides or neither, recursing
positionally into them. -/
def optEqual : OptionDef → OptionDef → Bool
  | .mk n1 d1 t1 r1 c1 o1, .mk n2 d2 t2 r2 c2 o2 =>
    n1 == n2 && d1 == d2 && t1 == t2 &&
      (r1.getD false == r2.getD false) && c1 == c2 && optChildrenEqual o1 o2

/-- Modelled from the spec: positional comparison of two option sequences;
lengths must match exactly and each positional pair must be equal. -/
def optListEqual : List OptionDef → List OptionDef → Bool
  | [], [] => true
  | a :: as, b :: bs => optEqual a b && optListEqual as bs
  | _, _ => false

/-- Modelled from the spec: comparison of the possibly-absent nested
`options` fields — if only one side declares nested options the pair is
unequal; if both declare them the comparison recurses. -/
def optChildrenEqual : Option (List OptionDef) → Option (List OptionDef) → Bool
  | none, none => true
  | some l1, some l2 => optListEqual l1 l2
  | _, _ => false

end

/-- `optEqual` is reflexive (together with its companions, by strong
induction on size). -/
theorem optEqual_refl : ∀ a : OptionDef, optEqual a a = true := by
  have key : ∀ n : Nat,
      (∀ a : OptionDef, sizeOf a ≤ n → optEqual a a = true) ∧
      (∀ l : List OptionDef, sizeOf l ≤ n → optListEqual l l = true) ∧
      (∀ o : Option (List OptionDef), sizeOf o ≤ n →
        optChildrenEqual o o = true) := by
    intro n
    induction n with
    | zero =>
      refine ⟨?_, ?_, ?_⟩
      · intro a ha; cases a; simp at ha
      · intro l hl
        cases l with
        | nil => simp [optListEqual]
        | cons a as => simp at hl
      · intro o ho
        cases o with
        | none => simp [optChildrenEqual]
        | some l => simp at ho
    | succ n ih =>
      obtain ⟨ihOpt, ihList, ihChildren⟩ := ih
      refine ⟨?_, ?_, ?_⟩
      · intro a ha
        cases a with
        | mk nm ds ty rq ch op =>
          have hop : sizeOf op ≤ n := by
            simp [OptionDef.mk.sizeOf_spec] at ha
            omega
          simp [optEqual, ihChildren op hop]
      · intro l hl
        cases l with
        | nil => simp [optListEqual]
        | cons a as =>
          have ha : sizeOf a ≤ n := by
            simp [List.cons.sizeOf_spec] at hl
            omega
          have has : sizeOf as ≤ n := by
            simp [List.cons.sizeOf_spec] at hl
            have h1 : 1 ≤ sizeOf a := by
              cases a; simp [OptionDef.mk.sizeOf_spec]; omega
            omega
          simp [optListEqual, ihOpt a ha, ihList as has]
      · intro o ho
        cases o with
        | none => simp [optChildrenEqual]
        | some l =>
          have hll : sizeOf l ≤ n := by
            simp [Option.some.sizeOf_spec] at ho
            omega
          simp [optChildrenEqual, ihList l hll]
  intro a
  exact (key (sizeOf a)).1 a le_rfl

/-- `optListEqual` is reflexive. -/
theorem optListEqual_refl : ∀ l : List OptionDef, optListEqual l l = true := by
  intro l
  induction l with
  | nil => rfl
  | cons a as ih => simp [optListEqual, optEqual_refl a, ih]

/-- A command definition: the fields of the data model that the module
reads. A desired command is caller-supplied; an observed command is one
entry of the fetched snapshot (its remote-assigned identifier plays no
role in the module and is omitted). `defaultMemberPermissions`, `nsfw`
and `options` may be absent. -/
structure CommandDef where
  name : String
  description : String
  type : Nat
  defaultMemberPermissions : Option Int
  nsfw : Option Bool
  options : Option (List OptionDef)
deriving Repr

/-- Embeds `isCommandModified` (src/index.js lines 149-156): field-by-field
comparison of the previous (observed) command with the new (desired) one.
`description`, `defaultMemberPermissions` and `nsfw` are compared by raw
strict (in)equality on the possibly-absent value; the `options` arrays are
defaulted to `[]` when absent (`?? []`) and handed to
`ApplicationCommand.optionsEqual`. Returns `true` when the command needs
an update. -/
def isCommandModified (previousCommand newCommand : CommandDef) : Bool :=
  if previousCommand.description ≠ newCommand.description then true
  else if previousCommand.defaultMemberPermissions ≠
      newCommand.defaultMemberPermissions then true
  else if previousCommand.nsfw ≠ newCommand.nsfw then true
  else !(optListEqual (previousCommand.options.getD [])
      (newCommand.options.getD []))

/-- Embeds line 72: `commands.filter((command) =>
!currentCommands.some((c) => c.name === command.name))` — the desired
commands whose name has no match in the snapshot. -/
def newCommands (commands currentCommands : List CommandDef) :
    List CommandDef :=
  commands.filter (fun command =>
    !(currentCommands.any (fun c => c.name == command.name)))

/-- Embeds line 91: `currentCommands.filter((command) =>
!commands.some((c) => c.name === command.name))` — the observed commands
whose name has no match in the desired list. -/
def deletedCommands (commands currentCommands : List CommandDef) :
    List CommandDef :=
  currentCommands.filter (fun command =>
    !(commands.any (fun c => c.name == command.name)))

/-- Embeds line 110: `commands.filter((command) =>
currentCommands.some((c) => c.name === command.name))` — the desired
commands whose name has a match in the snapshot (update candidates,
before the equality filter). -/
def updatedCommands (commands currentCommands : List CommandDef) :
    List CommandDef :=
  commands.filter (fun command =>
    currentCommands.any (fun c => c.name == command.name))

/-- Embeds the create and delete loops (lines 75-83 and 94-102): each item
of the phase list gets one mutation call; a call that throws is caught,
logged and skipped, and only successful calls are counted. The oracle
`ok` tells whether the call for an item succeeds. -/
def runMutations {α : Type} (ok : α → Bool) : List α → Nat
  | [] => 0
  | item :: rest => (if ok item then 1 else 0) + runMutations ok rest

/-- Embeds the update loop (lines 113-125): for each update candidate,
look up the first observed command with the same name
(`currentCommands.find((c) => c.name === updatedCommand.name)`); when
`isCommandModified` holds, issue an `edit` call with the (previous,
updated) pair, counting it when it succeeds; a throwing `edit` is caught
and skipped. Returns the success count and the ordered list of issued
edit calls. -/
def editLoop (editOk : CommandDef × CommandDef → Bool)
    (currentCommands : List CommandDef) :
    List CommandDef → Nat × List (CommandDef × CommandDef)
  | [] => (0, [])
  | u :: rest =>
    let tail := editLoop editOk currentCommands rest
    match currentCommands.find? (fun c => c.name == u.name) with
    | some prev =>
      if isCommandModified prev u then
        ((if editOk (prev, u) then 1 else 0) + tail.1, (prev, u) :: tail.2)
      else tail
    | none => tail

/-- The set of edit calls a pass issues: the name-matched (previous,
updated) pairs that `isCommandModified` reports as differing. This is the
spec's `toUpdate` set (update candidates narrowed by the equality
comparator). -/
def editPairs (commands currentCommands : List CommandDef) :
    List (CommandDef × CommandDef) :=
  (updatedCommands commands currentCommands).filterMap (fun u =>
    match currentCommands.find? (fun c => c.name == u.name) with
    | some prev => if isCommandModified prev u then some (prev, u) else none
    | none => none)

/-- The result record returned by a successful pass (lines 130-135). -/
structure SyncResult where
  currentCommandCount : Nat
  newCommandCount : Nat
  deletedCommandCount : Nat
  updatedCommandCount : Nat
deriving DecidableEq, Repr

/-- The mutation calls a pass issues, in program order per phase. -/
structure SyncTrace where
  createCalls : List CommandDef
  deleteCalls : List CommandDef
  editCalls : List (CommandDef × CommandDef)
deriving Repr

/-- Embeds the mutation phases of one pass (lines 66-135), given the
fetched snapshot: compute the three diff sets, run the create loop, the
delete loop and the update loop in that order against the initial
snapshot, and return the result record plus the calls issued. -/
def syncPass (commands currentCommands : List CommandDef)
    (createOk deleteOk : CommandDef → Bool)
    (editOk : CommandDef × CommandDef → Bool) : SyncResult × SyncTrace :=
  let news := newCommands commands currentCommands
  let createdCount := runMutations createOk news
  let dels := deletedCommands commands currentCommands
  let deletedCount := runMutations deleteOk dels
  let ups := updatedCommands commands currentCommands
  let edits := editLoop editOk currentCommands ups
  ({ currentCommandCount := currentCommands.length,
     newCommandCount := createdCount,
     deletedCommandCount := deletedCount,
     updatedCommandCount := edits.1 },
   { createCalls := news, deleteCalls := dels, editCalls := edits.2 })

/-- A failure of the snapshot fetch, as seen by the `.catch` handler: a
numeric REST error code plus a message. -/
structure FetchErr where
  code : Nat
  message : String
deriving DecidableEq, Repr

/-- `RESTJSONErrorCodes.MissingAccess` (an external `discord.js`
constant; its concrete numeric value 50001 only matters up to equality
with a fetch error's code). -/
def missingAccessCode : Nat := 50001

/-- The message of the error thrown when the fetch fails with
`MissingAccess` (line 61). -/
def scopeErrorMessage : String :=
  "The client does not have the \"applications.commands\" scope authorized."

/-- An error escaping the fetch step. -/
inductive SyncError where
  | scopeError (message : String)
  | remote (e : FetchErr)
deriving DecidableEq, Repr

/-- Embeds the fetch `.catch` handler (lines 59-64): a `MissingAccess`
error is replaced by a fresh explanatory `Error`; every other error is
rethrown unchanged. -/
def handleFetchError (err : FetchErr) : SyncError :=
  if err.code = missingAccessCode then SyncError.scopeError scopeErrorMessage
  else SyncError.remote err

/-- An error escaping the exported function. -/
inductive TopError where
  | typeErr (message : String)
  | syncErr (e : SyncError)
deriving DecidableEq, Repr

/-- What I/O the exported function performed: whether the ready gate was
awaited, whether the snapshot fetch was attempted, and the mutation calls
issued. -/
structure FullTrace where
  awaitedReady : Bool
  fetched : Bool
  createCalls : List CommandDef
  deleteCalls : List CommandDef
  editCalls : List (CommandDef × CommandDef)
deriving Repr

/-- The trace of a run that performed no I/O at all. -/
def noEffects : FullTrace :=
  { awaitedReady := false, fetched := false,
    createCalls := [], deleteCalls := [], editCalls := [] }

/-- Embeds the exported function (lines 27-141). `clientIsClient` and
`commandsIsArray` model the two `instanceof` / `Array.isArray` argument
checks; `fetchResult` models the outcome of the snapshot fetch. On bad
arguments a `TypeError` is thrown before the ready gate, the fetch, or
any mutation. A fetch failure runs through `handleFetchError` and aborts
the pass with no mutation calls (the outer `catch` rethrows it
unchanged). Otherwise the mutation phases run and the result record is
returned. -/
def syncCommands (clientIsClient commandsIsArray : Bool)
    (commands : List CommandDef)
    (fetchResult : Except FetchErr (List CommandDef))
    (createOk deleteOk : CommandDef → Bool)
    (editOk : CommandDef × CommandDef → Bool) :
    Except TopError SyncResult × FullTrace :=
  if !clientIsClient then
    (Except.error (TopError.typeErr "Client instance is required"), noEffects)
  else if !commandsIsArray then
    (Except.error (TopError.typeErr "Commands must be an array"), noEffects)
  else
    match fetchResult with
    | Except.error e =>
      (Except.error (TopError.syncErr (handleFetchError e)),
       { awaitedReady := true, fetched := true,
         createCalls := [], deleteCalls := [], editCalls := [] })
    | Except.ok currentCommands =>
      let out := syncPass commands currentCommands createOk deleteOk editOk
      (Except.ok out.1,
       { awaitedReady := true, fetched := true,
         createCalls := out.2.createCalls,
         deleteCalls := out.2.deleteCalls,
         editCalls := out.2.editCalls })

/-! ## Helper lemmas -/

/-- The per-item mutation loop counts exactly the items whose call
succeeds. -/
theorem runMutations_eq_countP {α : Type} (ok : α → Bool) (l : List α) :
    runMutations ok l = l.countP ok := by
  induction l with
  | nil => rfl
  | cons a as ih =>
    cases h : ok a <;>
      simp [runMutations, List.countP_cons, h, ih, Nat.add_comm]

/-- The calls the update loop issues are exactly the name-matched pairs
that `isCommandModified` reports as differing, in input order. -/
theorem editLoop_snd (editOk : CommandDef × CommandDef → Bool)
    (currentCommands : List CommandDef) (l : List CommandDef) :
    (editLoop editOk currentCommands l).2 = l.filterMap (fun u =>
      match currentCommands.find? (fun c => c.name == u.name) with
      | some prev => if isCommandModified prev u then some (prev, u)
          else none
      | none => none) := by
  induction l with
  | nil => rfl
  | cons u rest ih =>
    simp only [editLoop, List.filterMap_cons]
    cases hf : currentCommands.find? (fun c => c.name == u.name) with
    | none => simpa using ih
    | some prev => cases hm : isCommandModified prev u <;> simp [hm, ih]

/-- The update loop counts exactly the issued edit calls that succeed. -/
theorem editLoop_fst (editOk : CommandDef × CommandDef → Bool)
    (currentCommands : List CommandDef) (l : List CommandDef) :
    (editLoop editOk currentCommands l).1 =
      (editLoop editOk currentCommands l).2.countP editOk := by
  induction l with
  | nil => rfl
  | cons u rest ih =>
    simp only [editLoop]
    cases hf : currentCommands.find? (fun c => c.name == u.name) with
    | none => simpa using ih
    | some prev =>
      cases hm : isCommandModified prev u with
      | false => simpa [hm] using ih
      | true =>
        cases he : editOk (prev, u) <;>
          simp [hm, he, List.countP_cons, ih, Nat.add_comm]

/-- `isCommandModified` is irreflexive: a command never differs from
itself. -/
theorem isCommandModified_refl (a : CommandDef) :
    isCommandModified a a = false := by
  simp [isCommandModified, optListEqual_refl]

/-! ## Claims -/

/-- C1: for every desired list and observed snapshot whose name sets are
disjoint, the one-pass diff puts every element of the desired list into
the create set (in its order), every element of the snapshot into the
delete set, and both the update-candidate set and the filtered update set
are empty. -/
theorem sync_C1 (commands currentCommands : List CommandDef)
    (hdisj : ∀ c ∈ commands, ∀ o ∈ currentCommands, c.name ≠ o.name) :
    newCommands commands currentCommands = commands ∧
    deletedCommands commands currentCommands = currentCommands ∧
    updatedCommands commands currentCommands = [] ∧
    editPairs commands currentCommands = [] := by
  have hanyC : ∀ c ∈ commands,
      currentCommands.any (fun o => o.name == c.name) = false := by
    intro c hc
    rw [List.any_eq_false]
    intro o ho
    simp only [Bool.not_eq_true]
    exact beq_eq_false_iff_ne.mpr fun h => hdisj c hc o ho h.symm
  have hanyO : ∀ o ∈ currentCommands,
      commands.any (fun c => c.name == o.name) = false := by
    intro o ho
    rw [List.any_eq_false]
    intro c hc
    simp only [Bool.not_eq_true]
    exact beq_eq_false_iff_ne.mpr (hdisj c hc o ho)
  have hupd : updatedCommands commands currentCommands = [] := by
    rw [updatedCommands, List.filter_eq_nil_iff]
    intro c hc
    simp [hanyC c hc]
  refine ⟨?_, ?_, hupd, ?_⟩
  · rw [newCommands, List.filter_eq_self]
    intro c hc
    simp [hanyC c hc]
  · rw [deletedCommands, List.filter_eq_self]
    intro o ho
    simp [hanyO o ho]
  · rw [editPairs, hupd, List.filterMap_nil]

/-- C1 witness: a concrete desired list and snapshot with disjoint
names. -/
theorem sync_C1_witness :
    newCommands [⟨"ping", "A", 1, none, none, none⟩]
        [⟨"old", "B", 1, none, none, none⟩] =
      [⟨"ping", "A", 1, none, none, none⟩] ∧
    deletedCommands [⟨"ping", "A", 1, none, none, none⟩]
        [⟨"old", "B", 1, none, none, none⟩] =
      [⟨"old", "B", 1, none, none, none⟩] ∧
    updatedCommands [⟨"ping", "A", 1, none, none, none⟩]
        [⟨"old", "B", 1, none, none, none⟩] = [] ∧
    editPairs [⟨"ping", "A", 1, none, none, none⟩]
        [⟨"old", "B", 1, none, none, none⟩] = [] := by
  refine sync_C1 _ _ ?_
  intro c hc o ho
  simp only [List.mem_singleton] at hc ho
  subst hc; subst ho
  decide

/-- C3: per-item failure isolation. Every item of each phase gets its
mutation call (the issued-call lists equal the three diff sets, whatever
the failure oracles say, so a throwing item aborts neither the remaining
items nor the later phases), the pass always produces a result record,
and each phase's count is exactly the number of issued calls of that
phase that succeeded. -/
theorem sync_C3 (commands currentCommands : List CommandDef)
    (createOk deleteOk : CommandDef → Bool)
    (editOk : CommandDef × CommandDef → Bool) :
    (syncPass commands currentCommands createOk deleteOk editOk).2.createCalls =
      newCommands commands currentCommands ∧
    (syncPass commands currentCommands createOk deleteOk editOk).2.deleteCalls =
      deletedCommands commands currentCommands ∧
    (syncPass commands currentCommands createOk deleteOk editOk).2.editCalls =
      editPairs commands currentCommands ∧
    (syncPass commands currentCommands createOk deleteOk editOk).1.newCommandCount =
      (newCommands commands currentCommands).countP createOk ∧
    (syncPass commands currentCommands createOk deleteOk editOk).1.deletedCommandCount =
      (deletedCommands commands currentCommands).countP deleteOk ∧
    (syncPass commands currentCommands createOk deleteOk editOk).1.updatedCommandCount =
      (editPairs commands currentCommands).countP editOk := by
  refine ⟨rfl, rfl, ?_, ?_, ?_, ?_⟩
  · exact editLoop_snd editOk currentCommands _
  · exact runMutations_eq_countP createOk _
  · exact runMutations_eq_countP deleteOk _
  · rw [show (syncPass commands currentCommands createOk deleteOk editOk).1.updatedCommandCount =
        (editLoop editOk currentCommands
          (updatedCommands commands currentCommands)).1 from rfl,
      editLoop_fst, editLoop_snd]
    rfl

/-- C8: when the client handle is not a `Client` instance, or the
commands argument is not an array, the exported function fails with the
corresponding `TypeError` and performs no I/O at all: the ready gate is
not awaited, no fetch happens, and no mutation call is issued. -/
theorem sync_C8 (commandsIsArray : Bool) (commands : List CommandDef)
    (fetchResult : Except FetchErr (List CommandDef))
    (createOk deleteOk : CommandDef → Bool)
    (editOk : CommandDef × CommandDef → Bool) :
    syncCommands false commandsIsArray commands fetchResult
        createOk deleteOk editOk =
      (Except.error (TopError.typeErr "Client instance is required"),
        noEffects) ∧
    syncCommands true false commands fetchResult
        createOk deleteOk editOk =
      (Except.error (TopError.typeErr "Commands must be an array"),
        noEffects) := by
  exact ⟨rfl, rfl⟩

/-- C9: a successful pass reports as its observed count the size of the
snapshot fetched at pass start, whatever the mutation phases do or fail
to do. -/
theorem sync_C9 (commands currentCommands : List CommandDef)
    (createOk deleteOk : CommandDef → Bool)
    (editOk : CommandDef × CommandDef → Bool) :
    (syncCommands true true commands (Except.ok currentCommands)
        createOk deleteOk editOk).1 =
      Except.ok (syncPass commands currentCommands
        createOk deleteOk editOk).1 ∧
    (syncPass commands currentCommands
        createOk deleteOk editOk).1.currentCommandCount =
      currentCommands.length := by
  exact ⟨rfl, rfl⟩

/-! ## Concrete commands used by scenarios, witnesses and
counterexamples -/

/-- The desired "ping" command of the spec's update scenario
(description "B"). -/
def pingDesired : CommandDef := ⟨"ping", "B", 1, none, none, none⟩

/-- The observed "ping" command of the spec's update scenario
(description "A"). -/
def pingObserved : CommandDef := ⟨"ping", "A", 1, none, none, none⟩

/-- A command whose `nsfw` field is absent. -/
def nsfwAbsent : CommandDef := ⟨"cmd", "d", 1, none, none, none⟩

/-- The same command with `nsfw` explicitly `false`. -/
def nsfwFalse : CommandDef := ⟨"cmd", "d", 1, none, some false, none⟩

/-- First desired entry of a duplicate-name pair. -/
def dupFirst : CommandDef := ⟨"dup", "first", 1, none, none, none⟩

/-- Second desired entry with the same name as `dupFirst`. -/
def dupSecond : CommandDef := ⟨"dup", "second", 1, none, none, none⟩

/-- An observed command with the duplicated name. -/
def dupObserved : CommandDef := ⟨"dup", "obs", 1, none, none, none⟩

/-- A command whose `options` field is absent. -/
def optAbsent : CommandDef := ⟨"opt", "d", 1, none, none, none⟩

/-- The same command with `options` declared as the empty list. -/
def optEmpty : CommandDef := ⟨"opt", "d", 1, none, none, some []⟩

/-- C2: an edit call is issued for a name-matched (observed, desired)
pair exactly when `isCommandModified` reports them different; when every
matched pair compares equal, no edit call is issued; and in the spec's
scenario (desired "ping"/"B" against observed "ping"/"A") exactly one
edit is called, with that pair, and the result reports one update. -/
theorem sync_C2 :
    (∀ (commands currentCommands : List CommandDef) (prev u : CommandDef),
      ((prev, u) ∈ editPairs commands currentCommands ↔
        u ∈ commands ∧
          currentCommands.find? (fun c => c.name == u.name) = some prev ∧
          isCommandModified prev u = true)) ∧
    (∀ commands currentCommands : List CommandDef,
      (∀ prev u, u ∈ commands →
        currentCommands.find? (fun c => c.name == u.name) = some prev →
        isCommandModified prev u = false) →
      editPairs commands currentCommands = []) ∧
    (editPairs [pingDesired] [pingObserved] =
        [(pingObserved, pingDesired)] ∧
      (syncPass [pingDesired] [pingObserved] (fun _ => true) (fun _ => true)
          (fun _ => true)).2.editCalls = [(pingObserved, pingDesired)] ∧
      (syncPass [pingDesired] [pingObserved] (fun _ => true) (fun _ => true)
          (fun _ => true)).1 =
        { currentCommandCount := 1, newCommandCount := 0,
          deletedCommandCount := 0, updatedCommandCount := 1 }) := by
  refine ⟨?_, ?_, rfl, rfl, rfl⟩
  · intro commands currentCommands prev u
    constructor
    · intro hmem
      obtain ⟨a, ha, hfa⟩ := List.mem_filterMap.mp hmem
      cases hf : currentCommands.find? (fun c => c.name == a.name) with
      | none => rw [hf] at hfa; cases hfa
      | some p =>
        rw [hf] at hfa
        cases hm : isCommandModified p a with
        | false => simp [hm] at hfa
        | true =>
          simp only [hm, if_true] at hfa
          simp only [Option.some.injEq, Prod.mk.injEq] at hfa
          obtain ⟨hp, hu⟩ := hfa
          subst hp; subst hu
          exact ⟨(List.mem_filter.mp ha).1, hf, hm⟩
    · rintro ⟨hu, hf, hm⟩
      have hpmem : prev ∈ currentCommands := List.mem_of_find?_eq_some hf
      have hppred : (prev.name == u.name) = true := by
        simpa using List.find?_some hf
      refine List.mem_filterMap.mpr ⟨u, ?_, ?_⟩
      · exact List.mem_filter.mpr
          ⟨hu, List.any_eq_true.mpr ⟨prev, hpmem, hppred⟩⟩
      · rw [hf]
        simp [hm]
  · intro commands currentCommands h
    rw [editPairs, List.filterMap_eq_nil_iff]
    intro u hu
    have huc : u ∈ commands := (List.mem_filter.mp hu).1
    cases hf : currentCommands.find? (fun c => c.name == u.name) with
    | none => simp only [hf]
    | some prev => simp only [hf, h prev u huc hf, Bool.false_eq_true,
        if_false]

/-- C2 witness: the scenario pair is an issued edit call, obtained
through the characterization. -/
theorem sync_C2_witness :
    (pingObserved, pingDesired) ∈ editPairs [pingDesired] [pingObserved] :=
  (sync_C2.1 [pingDesired] [pingObserved] pingObserved pingDesired).mpr
    ⟨List.mem_singleton.mpr rfl, rfl, rfl⟩

/-- C4: when the snapshot fetch fails, no mutation call is issued and
the pass fails; a fetch error carrying the `MissingAccess` code is
replaced by the explanatory authorization error, and any other fetch
error propagates unmodified. -/
theorem sync_C4 (commands : List CommandDef) (e : FetchErr)
    (createOk deleteOk : CommandDef → Bool)
    (editOk : CommandDef × CommandDef → Bool) :
    syncCommands true true commands (Except.error e)
        createOk deleteOk editOk =
      (Except.error (TopError.syncErr (handleFetchError e)),
       { awaitedReady := true, fetched := true,
         createCalls := [], deleteCalls := [], editCalls := [] }) ∧
    (e.code = missingAccessCode →
      handleFetchError e = SyncError.scopeError scopeErrorMessage) ∧
    (e.code ≠ missingAccessCode →
      handleFetchError e = SyncError.remote e) := by
  refine ⟨rfl, ?_, ?_⟩
  · intro h; simp [handleFetchError, h]
  · intro h; simp [handleFetchError, h]

/-- C4 witness: a `MissingAccess` fetch failure aborts the pass with the
authorization error and no mutation calls; another code passes through
unmodified. -/
theorem sync_C4_witness :
    syncCommands true true []
        (Except.error ⟨missingAccessCode, "denied"⟩)
        (fun _ => true) (fun _ => true) (fun _ => true) =
      (Except.error
          (TopError.syncErr (SyncError.scopeError scopeErrorMessage)),
       { awaitedReady := true, fetched := true,
         createCalls := [], deleteCalls := [], editCalls := [] }) ∧
    handleFetchError ⟨42, "boom"⟩ = SyncError.remote ⟨42, "boom"⟩ := by
  have h := sync_C4 [] ⟨missingAccessCode, "denied"⟩
    (fun _ => true) (fun _ => true) (fun _ => true)
  refine ⟨?_, (sync_C4 [] ⟨42, "boom"⟩
    (fun _ => true) (fun _ => true) (fun _ => true)).2.2 (by decide)⟩
  rw [h.1, h.2.1 rfl]

/-- Modelled from the spec: the external remote store (the `discord.js`
application-command manager, absent from `src/`) after one pass in which
every mutation call succeeded. Per the spec the store records the
definitions it is given verbatim: an observed command matched by name is
replaced by the matched desired definition when the pass edited it and
kept otherwise, an unmatched observed command is deleted, and every
created desired command is added. Faithful to the pass under the spec's
invariant that names are unique within the snapshot. -/
def applyPass (commands currentCommands : List CommandDef) :
    List CommandDef :=
  currentCommands.filterMap (fun o =>
    match commands.find? (fun c => c.name == o.name) with
    | some d => some (if isCommandModified o d then d else o)
    | none => none)
  ++ newCommands commands currentCommands

/-- C5: idempotence. If the remote store changed only by the first
pass's own (all-successful) mutations, a second pass with the same
desired list issues zero create, delete and edit calls, under the spec's
invariant that names are unique in the desired list and in the
snapshot. -/
theorem sync_C5 (commands currentCommands : List CommandDef)
    (hD : (commands.map CommandDef.name).Nodup)
    (hO : (currentCommands.map CommandDef.name).Nodup) :
    (syncPass commands (applyPass commands currentCommands)
        (fun _ => true) (fun _ => true) (fun _ => true)).2.createCalls = [] ∧
    (syncPass commands (applyPass commands currentCommands)
        (fun _ => true) (fun _ => true) (fun _ => true)).2.deleteCalls = [] ∧
    (syncPass commands (applyPass commands currentCommands)
        (fun _ => true) (fun _ => true) (fun _ => true)).2.editCalls = [] ∧
    (syncPass commands (applyPass commands currentCommands)
        (fun _ => true) (fun _ => true)
        (fun _ => true)).1.newCommandCount = 0 ∧
    (syncPass commands (applyPass commands currentCommands)
        (fun _ => true) (fun _ => true)
        (fun _ => true)).1.deletedCommandCount = 0 ∧
    (syncPass commands (applyPass commands currentCommands)
        (fun _ => true) (fun _ => true)
        (fun _ => true)).1.updatedCommandCount = 0 := by
  -- every stored command carries a desired name
  have hA : ∀ r ∈ applyPass commands currentCommands,
      commands.any (fun c => c.name == r.name) = true := by
    intro r hr
    rw [applyPass, List.mem_append] at hr
    rcases hr with hr | hr
    · obtain ⟨o, ho, hfo⟩ := List.mem_filterMap.mp hr
      cases hf : commands.find? (fun c => c.name == o.name) with
      | none => rw [hf] at hfo; cases hfo
      | some d =>
        rw [hf] at hfo
        have hd : d ∈ commands := List.mem_of_find?_eq_some hf
        have hdn : d.name = o.name := by
          exact eq_of_beq (by simpa using List.find?_some hf)
        have hite : (if isCommandModified o d then d else o) = r :=
          Option.some.inj hfo
        have hrn : r.name = o.name := by
          rw [← hite]
          cases hm : isCommandModified o d <;> simp [hm, hdn]
        rw [List.any_eq_true]
        exact ⟨d, hd, beq_iff_eq.mpr (by rw [hdn, hrn])⟩
    · have hrc : r ∈ commands := (List.mem_filter.mp hr).1
      rw [List.any_eq_true]
      exact ⟨r, hrc, beq_iff_eq.mpr rfl⟩
  -- every desired name is present in the stored snapshot
  have hB : ∀ c ∈ commands,
      (applyPass commands currentCommands).any
        (fun o => o.name == c.name) = true := by
    intro c hc
    by_cases hmatch :
        currentCommands.any (fun o => o.name == c.name) = true
    · obtain ⟨o, ho, hon⟩ := List.any_eq_true.mp hmatch
      have honame : o.name = c.name := by simpa using eq_of_beq hon
      obtain ⟨d, hd⟩ : ∃ d,
          commands.find? (fun x => x.name == o.name) = some d := by
        have : (commands.find? (fun x => x.name == o.name)).isSome :=
          List.find?_isSome.mpr ⟨c, hc, beq_iff_eq.mpr honame.symm⟩
        exact Option.isSome_iff_exists.mp this
      have hdn : d.name = o.name := by
        exact eq_of_beq (by simpa using List.find?_some hd)
      rw [List.any_eq_true]
      refine ⟨if isCommandModified o d then d else o, ?_, ?_⟩
      · rw [applyPass, List.mem_append]
        left
        exact List.mem_filterMap.mpr ⟨o, ho, by rw [hd]⟩
      · cases hm : isCommandModified o d <;>
          simp [hm, hdn, honame]
    · rw [Bool.not_eq_true] at hmatch
      have hcnew : c ∈ newCommands commands currentCommands :=
        List.mem_filter.mpr ⟨hc, by simp [hmatch]⟩
      rw [List.any_eq_true]
      refine ⟨c, ?_, beq_iff_eq.mpr rfl⟩
      rw [applyPass, List.mem_append]
      right
      exact hcnew
  have hnew : newCommands commands (applyPass commands currentCommands) =
      [] := by
    rw [newCommands, List.filter_eq_nil_iff]
    intro c hc
    simp [hB c hc]
  have hdel :
      deletedCommands commands (applyPass commands currentCommands) =
        [] := by
    rw [deletedCommands, List.filter_eq_nil_iff]
    intro r hr
    simp [hA r hr]
  have hedit : editPairs commands (applyPass commands currentCommands) =
      [] := by
    rw [editPairs, List.filterMap_eq_nil_iff]
    intro u hu
    have huc : u ∈ commands := (List.mem_filter.mp hu).1
    cases hf : (applyPass commands currentCommands).find?
        (fun c => c.name == u.name) with
    | none => simp only [hf]
    | some prev =>
      have hprevR : prev ∈ applyPass commands currentCommands :=
        List.mem_of_find?_eq_some hf
      have hpn : prev.name = u.name := by
        exact eq_of_beq (by simpa using List.find?_some hf)
      have hmod : isCommandModified prev u = false := by
        rw [applyPass, List.mem_append] at hprevR
        rcases hprevR with hpm | hpm
        · obtain ⟨o, ho, hfo⟩ := List.mem_filterMap.mp hpm
          cases hfd : commands.find? (fun x => x.name == o.name) with
          | none => rw [hfd] at hfo; cases hfo
          | some d =>
            rw [hfd] at hfo
            have hdc : d ∈ commands := List.mem_of_find?_eq_some hfd
            have hdn : d.name = o.name := by
              exact eq_of_beq (by simpa using List.find?_some hfd)
            have hite : (if isCommandModified o d then d else o) = prev :=
              Option.some.inj hfo
            have hpo : prev.name = o.name := by
              rw [← hite]
              cases hm : isCommandModified o d <;> simp [hm, hdn]
            have hun : u.name = d.name := by rw [← hpn, hpo, hdn]
            have hud : u = d := List.inj_on_of_nodup_map hD huc hdc hun
            cases hm : isCommandModified o d with
            | true =>
              have hpd : prev = d := by rw [← hite, hm]; simp
              rw [hpd, hud]
              exact isCommandModified_refl d
            | false =>
              have hpo2 : prev = o := by rw [← hite, hm]; simp
              rw [hpo2, hud]
              exact hm
        · have hpc : prev ∈ commands := (List.mem_filter.mp hpm).1
          have hpu : prev = u := List.inj_on_of_nodup_map hD hpc huc hpn
          rw [hpu]
          exact isCommandModified_refl u
      simp only [hf, hmod, Bool.false_eq_true, if_false]
  have heditLoop : (editLoop (fun _ => true)
      (applyPass commands currentCommands)
      (updatedCommands commands
        (applyPass commands currentCommands))).2 = [] := by
    rw [editLoop_snd]
    exact hedit
  refine ⟨hnew, hdel, heditLoop, ?_, ?_, ?_⟩
  · show runMutations (fun _ => true)
      (newCommands commands (applyPass commands currentCommands)) = 0
    rw [hnew]
    rfl
  · show runMutations (fun _ => true)
      (deletedCommands commands (applyPass commands currentCommands)) = 0
    rw [hdel]
    rfl
  · show (editLoop (fun _ => true) (applyPass commands currentCommands)
      (updatedCommands commands
        (applyPass commands currentCommands))).1 = 0
    rw [editLoop_fst, heditLoop]
    rfl

/-- C5 witness: one desired command against an observed snapshot that
differs in description; after the first pass's successful edit the
second pass is a no-op. -/
theorem sync_C5_witness :
    (syncPass [pingDesired] (applyPass [pingDesired] [pingObserved])
        (fun _ => true) (fun _ => true) (fun _ => true)).2.createCalls = [] ∧
    (syncPass [pingDesired] (applyPass [pingDesired] [pingObserved])
        (fun _ => true) (fun _ => true) (fun _ => true)).2.deleteCalls = [] ∧
    (syncPass [pingDesired] (applyPass [pingDesired] [pingObserved])
        (fun _ => true) (fun _ => true) (fun _ => true)).2.editCalls = [] ∧
    (syncPass [pingDesired] (applyPass [pingDesired] [pingObserved])
        (fun _ => true) (fun _ => true)
        (fun _ => true)).1.newCommandCount = 0 ∧
    (syncPass [pingDesired] (applyPass [pingDesired] [pingObserved])
        (fun _ => true) (fun _ => true)
        (fun _ => true)).1.deletedCommandCount = 0 ∧
    (syncPass [pingDesired] (applyPass [pingDesired] [pingObserved])
        (fun _ => true) (fun _ => true)
        (fun _ => true)).1.updatedCommandCount = 0 :=
  sync_C5 [pingDesired] [pingObserved] (by decide) (by decide)

/-- C6 counterexample: the comparator does not default a missing `nsfw`
to `false`. Two commands identical in every other compared field, one
with `nsfw` absent and one with `nsfw == false`, compare unequal (the
comparator reports them modified, in both orders), and an update is
issued for the matched pair. -/
theorem sync_C6_counterexample :
    nsfwAbsent.name = nsfwFalse.name ∧
    nsfwAbsent.description = nsfwFalse.description ∧
    nsfwAbsent.defaultMemberPermissions =
      nsfwFalse.defaultMemberPermissions ∧
    nsfwAbsent.options = nsfwFalse.options ∧
    nsfwAbsent.nsfw = none ∧
    nsfwFalse.nsfw = some false ∧
    isCommandModified nsfwAbsent nsfwFalse = true ∧
    isCommandModified nsfwFalse nsfwAbsent = true ∧
    editPairs [nsfwFalse] [nsfwAbsent] = [(nsfwAbsent, nsfwFalse)] :=
  ⟨rfl, rfl, rfl, rfl, rfl, rfl, rfl, rfl, rfl⟩

/-- C6 amended: the comparator compares `nsfw` by raw strict equality on
the possibly-absent value, with no defaulting — once `description` and
`defaultMemberPermissions` agree, the verdict is exactly "the `nsfw`
fields differ (a missing value differing from any present one), or the
normalized `options` differ". -/
theorem sync_C6_amended (a b : CommandDef)
    (hdesc : a.description = b.description)
    (hperm : a.defaultMemberPermissions = b.defaultMemberPermissions) :
    isCommandModified a b =
      if a.nsfw ≠ b.nsfw then true
      else !(optListEqual (a.options.getD []) (b.options.getD [])) := by
  simp [isCommandModified, hdesc, hperm]

/-- C6 witness: the amended comparison rule applied to the concrete
missing-`nsfw` pair. -/
theorem sync_C6_witness :
    isCommandModified nsfwAbsent nsfwFalse =
      if nsfwAbsent.nsfw ≠ nsfwFalse.nsfw then true
      else !(optListEqual (nsfwAbsent.options.getD [])
        (nsfwFalse.options.getD [])) :=
  sync_C6_amended nsfwAbsent nsfwFalse rfl rfl

/-- C7 counterexample: later duplicates of a desired name are not
ignored by the mutation phases. With two desired entries named "dup" and
an empty snapshot, the create phase issues a create call for each of
them (the second is an extra create call for the later duplicate) and
counts both. -/
theorem sync_C7_counterexample :
    dupFirst.name = dupSecond.name ∧
    (syncPass [dupFirst, dupSecond] [] (fun _ => true) (fun _ => true)
        (fun _ => true)).2.createCalls = [dupFirst, dupSecond] ∧
    (syncPass [dupFirst, dupSecond] [] (fun _ => true) (fun _ => true)
        (fun _ => true)).1.newCommandCount = 2 :=
  ⟨rfl, rfl, rfl⟩

/-- C7 amended: no error is raised for duplicate desired names and the
observed-side lookup is first-match, but later duplicates are not
ignored by mutation: every desired entry whose name is absent from the
snapshot gets its own create call, and when the name is present each
duplicate is matched against the same first observed command and gets
its own edit call whenever the comparator reports it different. -/
theorem sync_C7_amended (d1 d2 o : CommandDef)
    (rest currentCommands : List CommandDef)
    (createOk deleteOk : CommandDef → Bool)
    (editOk : CommandDef × CommandDef → Bool)
    (hname : d1.name = d2.name)
    (habsent : currentCommands.any (fun c => c.name == d1.name) = false)
    (honame : o.name = d1.name)
    (hm1 : isCommandModified o d1 = true)
    (hm2 : isCommandModified o d2 = true) :
    (syncPass (d1 :: d2 :: rest) currentCommands
        createOk deleteOk editOk).2.createCalls =
      d1 :: d2 :: newCommands rest currentCommands ∧
    (syncPass [d1, d2] [o] createOk deleteOk editOk).2.editCalls =
      [(o, d1), (o, d2)] := by
  have e1 : (o.name == d1.name) = true := beq_iff_eq.mpr honame
  have e2 : (o.name == d2.name) = true :=
    beq_iff_eq.mpr (honame.trans hname)
  constructor
  · show newCommands (d1 :: d2 :: rest) currentCommands = _
    have h2 : currentCommands.any (fun c => c.name == d2.name) = false := by
      rw [← hname]
      exact habsent
    simp [newCommands, List.filter_cons, habsent, h2]
  · show (editLoop editOk [o] (updatedCommands [d1, d2] [o])).2 = _
    have hupd : updatedCommands [d1, d2] [o] = [d1, d2] := by
      simp [updatedCommands, List.filter_cons, e1, e2]
    have hf1 : [o].find? (fun c => c.name == d1.name) = some o :=
      List.find?_cons_of_pos _ e1
    have hf2 : [o].find? (fun c => c.name == d2.name) = some o :=
      List.find?_cons_of_pos _ e2
    rw [hupd, editLoop_snd]
    simp only [List.filterMap_cons, hf1, hf2, hm1, hm2, if_true]
    rfl

/-- C7 witness: the amended behavior on the concrete duplicate pair,
with an empty snapshot for the create side and the observed "dup"
command for the edit side. -/
theorem sync_C7_witness :
    (syncPass [dupFirst, dupSecond] [] (fun _ => true) (fun _ => true)
        (fun _ => true)).2.createCalls = [dupFirst, dupSecond] ∧
    (syncPass [dupFirst, dupSecond] [dupObserved] (fun _ => true)
        (fun _ => true) (fun _ => true)).2.editCalls =
      [(dupObserved, dupFirst), (dupObserved, dupSecond)] := by
  have h := sync_C7_amended dupFirst dupSecond dupObserved [] []
    (fun _ => true) (fun _ => true) (fun _ => true)
    rfl rfl rfl (by decide) (by decide)
  exact ⟨h.1, h.2⟩

/-- C10: an absent `options` field is normalized to the empty list (`??
[]`) before comparison, so a command with no `options` field and an
otherwise-identical one declaring `options == []` compare equal in both
orders, and no update is issued for the matched pair. -/
theorem sync_C10 (a b : CommandDef)
    (hname : a.name = b.name)
    (hdesc : a.description = b.description)
    (hperm : a.defaultMemberPermissions = b.defaultMemberPermissions)
    (hnsfw : a.nsfw = b.nsfw)
    (ha : a.options = none) (hb : b.options = some []) :
    isCommandModified a b = false ∧
    isCommandModified b a = false ∧
    editPairs [b] [a] = [] := by
  have hm : isCommandModified a b = false := by
    simp [isCommandModified, hdesc, hperm, hnsfw, ha, hb, optListEqual]
  have hm2 : isCommandModified b a = false := by
    simp [isCommandModified, hdesc, hperm, hnsfw, ha, hb, optListEqual]
  refine ⟨hm, hm2, ?_⟩
  have e1 : (a.name == b.name) = true := beq_iff_eq.mpr hname
  have hupd : updatedCommands [b] [a] = [b] := by
    simp [updatedCommands, List.filter_cons, e1]
  have hf : [a].find? (fun c => c.name == b.name) = some a :=
    List.find?_cons_of_pos _ e1
  rw [editPairs, hupd]
  simp only [List.filterMap_cons, hf, hm, Bool.false_eq_true, if_false]
  rfl

/-- C10 witness: the concrete absent-`options` / empty-`options` pair. -/
theorem sync_C10_witness :
    isCommandModified optAbsent optEmpty = false ∧
    isCommandModified optEmpty optAbsent = false ∧
    editPairs [optEmpty] [optAbsent] = [] :=
  sync_C10 optAbsent optEmpty rfl rfl rfl rfl rfl rfl

end SyncCommands
